import Mathlib

/-!
# Verification of the milochat message pipeline

A shallow embedding, in Lean 4, of the core of the milochat chat-overlay
repository: the message normalization / enrichment pipeline and the
display-log lifecycle manager.  Every definition below is translated from
the TypeScript source (`Client`/chat page module, `Images.tsx`,
`Pronouns.tsx`, `Options.tsx`); machine integers are modelled as `Int`
with explicit 32-bit truncation where JavaScript truncates, strings are
modelled as `List Char` (one entry per UTF-16 code unit of the
JavaScript string; all inputs used here are in the basic plane, where
the two notions of character coincide).
-/

namespace Milochat

/-! ## JavaScript primitives -/

/-- JavaScript `ToInt32`: reduce an integer to the range `[-2^31, 2^31)`. -/
def toInt32 (x : Int) : Int := (x + 2 ^ 31) % 2 ^ 32 - 2 ^ 31

/-- JavaScript `String.prototype.toUpperCase` on one character
(sufficient for the ASCII data handled by the blacklist). -/
def jsUpper (c : Char) : Char := c.toUpper

/-- Case-insensitive equality of two strings, as done by the source via
`a.toUpperCase() === b.toUpperCase()`. -/
def eqCI (a b : List Char) : Bool := a.map jsUpper == b.map jsUpper

/-- JavaScript word character (regex `\w`): letters, digits, underscore. -/
def isWordChar (c : Char) : Bool :=
  (('a' ≤ c && c ≤ 'z') || ('A' ≤ c && c ≤ 'Z') || ('0' ≤ c && c ≤ '9') || c = '_')

/-- Characters that the regex `.` (without the `s` flag) refuses to match. -/
def isLineTerminator (c : Char) : Bool := c = '\n' || c = '\r'

/-- Whitespace trimmed by `String.prototype.trim` (ASCII portion). -/
def isJsSpace (c : Char) : Bool :=
  c = ' ' || c = '\t' || c = '\n' || c = '\r' || c = '\x0b' || c = '\x0c'

/-- JavaScript `String.prototype.trim`. -/
def jsTrim (s : List Char) : List Char :=
  (s.dropWhile isJsSpace).reverse.dropWhile isJsSpace |>.reverse

/-- Lodash `_.padStart(s, n, c)`. -/
def padStart (s : List Char) (n : Nat) (c : Char) : List Char :=
  List.replicate (n - s.length) c ++ s

/-! ## C5 — subscription tier decomposition

From the `AbstractTwitchMessage` constructor: when the sender is a
subscriber and a `subscriber` badge is present, its numeric value is
decomposed into a tier and a months-in-tier count, and the cumulative
total is parsed from the separate `badge-info` field. -/

structure SubMonths where
  badge : Int
  tier : Int
  total : Int
deriving Repr, DecidableEq

/-- The subscriber-badge decomposition of the `AbstractTwitchMessage`
constructor.  `badgeValue` is `parseInt(tags.badges.subscriber)`;
`badgeInfoSub` is the optional `tags['badge-info'].subscriber` value
(`parseInt(x || "0")` in the source). -/
def mkSubMonths (badgeValue : Int) (badgeInfoSub : Option Int) : SubMonths :=
  if badgeValue ≥ 3000 then
    { badge := badgeValue - 3000, tier := 3, total := badgeInfoSub.getD 0 }
  else if badgeValue ≥ 2000 then
    { badge := badgeValue - 2000, tier := 2, total := badgeInfoSub.getD 0 }
  else
    { badge := badgeValue, tier := 1, total := badgeInfoSub.getD 0 }

/-! ## C6 — deterministic color fallback

`AbstractTwitchMessage.createColor`: a rolling 32-bit hash of the name,
masked to 24 bits and printed as a padded hex color. -/

/-- One step of the source's loop:
`hash = ((hash << 5) - hash) + char; hash = hash & hash;`.
The shift truncates its result to a signed 32-bit integer, the
subtraction and addition are exact (they stay far below 2^53), and the
self-`&` truncates again. -/
def hashStep (h : Int) (c : Nat) : Int := toInt32 (toInt32 (h * 32) - h + c)

/-- The full rolling hash of `createColor` (initial value 0). -/
def hashName (name : List Char) : Int :=
  name.foldl (fun h c => hashStep h c.toNat) 0

/-- `Number.prototype.toString(16)` for a nonnegative integer: most
significant digit first, lowercase, `"0"` for zero.  The fuel argument
only makes the recursion structural; 24 digits cover every number below
16^24, far beyond the 24-bit values used here. -/
def hexRep : Nat → Nat → List Char
  | 0, _ => []
  | fuel + 1, n =>
    if n < 16 then [Nat.digitChar n]
    else hexRep fuel (n / 16) ++ [Nat.digitChar (n % 16)]

/-- `h.toString(16)` of the source (`h` is a nonnegative 24-bit value). -/
def jsToString16 (n : Nat) : List Char := hexRep 24 n

/-- `AbstractTwitchMessage.createColor`: hash, mask to the low 24 bits
(`hash & 0xFFFFFF`, which on a 32-bit signed value is the nonnegative
residue mod 2^24), hex-format, pad to six digits, prefix `#`. -/
def createColor (name : List Char) : List Char :=
  let h : Int := hashName name % 2 ^ 24
  '#' :: padStart (jsToString16 h.toNat) 6 '0'

/-- The claim's description of the same computation: at each step the
exact value `(hash<<5) - hash + charCode = 31*hash + charCode` is
truncated to a signed 32-bit integer once. -/
def deriveColor (name : List Char) : List Char :=
  let h : Int := name.foldl (fun h c => toInt32 (31 * h + c.toNat)) 0 % 2 ^ 24
  '#' :: padStart (jsToString16 h.toNat) 6 '0'

/-! ## C8 — derived emote-only flags

`AbstractMessage.isEmoteOnly` strips every match of the regex
`/<img.*?>/g` (lazy: from a literal `<img` to the first following `>`,
with `.` refusing line terminators) and tests whether what remains trims
to the empty string.  `AbstractMessage.isOneEmoteOnly` tests the regex
`/^<img.*?>$/`, which (by backtracking of the lazy quantifier) accepts
exactly the strings that start with `<img`, end with `>`, have length at
least 5, and contain no line terminator strictly between. -/

/-- Consume characters up to and including the first `>`; fail if a line
terminator (which `.` cannot match) or the end of the string comes
first.  Returns the rest of the string after the `>`. -/
def findClose : List Char → Option (List Char)
  | [] => none
  | c :: rest =>
    if isLineTerminator c then none
    else if c = '>' then some rest
    else findClose rest

/-- The literal `<img` that both regexes begin with. -/
def imgLit : List Char := ['<', 'i', 'm', 'g']

/-- Scanner for `msg.replaceAll(/<img.*?>/g, "")`: at a position where
`<img` begins and a `>` closes it on the same line, drop the whole match
and continue after it; otherwise keep the character and move on.  The
fuel argument only makes the recursion structural; every match consumes
at least five characters, so fuel `s.length` never runs out. -/
def stripImgGo : Nat → List Char → List Char
  | 0, s => s
  | fuel + 1, s =>
    match s with
    | [] => []
    | c :: rest =>
      if imgLit.isPrefixOf (c :: rest) then
        match findClose ((c :: rest).drop 4) with
        | some rem => stripImgGo fuel rem
        | none => c :: stripImgGo fuel rest
      else c :: stripImgGo fuel rest

/-- `msg.replaceAll(/<img.*?>/g, "")`. -/
def stripImgTags (s : List Char) : List Char := stripImgGo s.length s

/-- Counting scanner for the matches of `/<img.*?>/g`. -/
def countImgGo : Nat → List Char → Nat
  | 0, _ => 0
  | fuel + 1, s =>
    match s with
    | [] => 0
    | c :: rest =>
      if imgLit.isPrefixOf (c :: rest) then
        match findClose ((c :: rest).drop 4) with
        | some rem => countImgGo fuel rem + 1
        | none => countImgGo fuel rest
      else countImgGo fuel rest

/-- The number of matches of `/<img.*?>/g`, i.e. the number of
`<img ...>` tags the strip pass removes. -/
def countImgTags (s : List Char) : Nat := countImgGo s.length s

/-- `AbstractMessage.isEmoteOnly`:
`msg.replaceAll(/<img.*?>/g, "").trim().length === 0`. -/
def isEmoteOnly (msg : List Char) : Bool :=
  (jsTrim (stripImgTags msg)).length == 0

/-- `AbstractMessage.isOneEmoteOnly`: the test `/^<img.*?>$/.test(msg)`.
After backtracking, the regex accepts iff the string starts with `<img`,
has length at least 5, ends with `>`, and every character strictly
between the opening `<img` and the final `>` is matchable by `.`. -/
def isOneEmoteOnlyTest (msg : List Char) : Bool :=
  imgLit.isPrefixOf msg && decide (5 ≤ msg.length) &&
    (msg.getLast? == some '>') &&
    ((msg.drop 4).dropLast.all (fun c => !isLineTerminator c))

/-- The mutable bookkeeping state of `AbstractMessage` relevant here. -/
structure AbstractMessage where
  id : List Char
  message : List Char
  emoteOnly : Bool
  isOneEmoteOnly : Bool
  markedForDelete : Bool
deriving Repr, DecidableEq

/-- The `AbstractMessage` constructor on an explicit id. -/
def mkAbstractMessage (message id : List Char) : AbstractMessage :=
  { id := id
    message := message
    emoteOnly := isEmoteOnly message
    isOneEmoteOnly := isEmoteOnly message && isOneEmoteOnlyTest message
    markedForDelete := false }

/-- `AbstractMessage.setMessage`: reassign the display HTML and recompute
both derived flags. -/
def setMessage (m : AbstractMessage) (message : List Char) : AbstractMessage :=
  { m with
    message := message
    emoteOnly := isEmoteOnly message
    isOneEmoteOnly := isEmoteOnly message && isOneEmoteOnlyTest message }

/-! ## Configuration (`Options.tsx`)

The fields of `MilochatOptions` consumed by the components verified
here: the blacklist rules and the display-log limit policy.
User-blacklist entries are modelled as literal strings (no regex
metacharacters), for which the source's `user.match(test)` is substring
search; the free-standing regexes of `blacklist.matches` are modelled as
abstract `List Char → Bool` predicates. -/

structure BlacklistOpts where
  users : List (List Char) := []
  includes : List (List Char) := []
  prefixes : List (List Char) := []
  -- the source field is named `matches`, a reserved word in Lean
  regexes : List (List Char → Bool) := []

/-- The `Limit` union of `Options.tsx`: a fixed line count or a fixed
time-to-live in milliseconds. -/
inductive LimitFlavor
  | count (n : Nat)
  | time (ms : Nat)
deriving Repr, DecidableEq

structure LimitOpts where
  flavor : LimitFlavor
  fade : Option Nat := none
deriving Repr, DecidableEq

structure MilochatOptions where
  blacklist : Option BlacklistOpts := none
  limit : Option LimitOpts := none

/-! ## C3 — blacklist verdict

`AbstractTwitchMessage.isBlacklist` and its two helpers. -/

/-- Case-insensitive `message.toUpperCase().startsWith(p.toUpperCase())`. -/
def jsStartsWithCI (s p : List Char) : Bool :=
  (p.map jsUpper).isPrefixOf (s.map jsUpper)

/-- The pattern occurs (case-insensitively) at index `i` of the subject. -/
def sublistAtCI (pat s : List Char) (i : Nat) : Bool :=
  eqCI ((s.drop i).take pat.length) pat

/-- Whether an optional character is a word character (`\b` treats the
ends of the string as non-word). -/
def isWordOpt : Option Char → Bool
  | none => false
  | some c => isWordChar c

/-- A `\b` boundary holds between two (optional) adjacent characters iff
exactly one side is a word character. -/
def wordBoundary (a b : Option Char) : Bool := isWordOpt a != isWordOpt b

/-- `RegExp("\b" + pat + "\b", "gi")` matches at index `i` of `s`
(for a literal, metacharacter-free, nonempty `pat`). -/
def wholeWordAtCI (pat s : List Char) (i : Nat) : Bool :=
  !pat.isEmpty && sublistAtCI pat s i &&
    wordBoundary (if i = 0 then none else s.get? (i - 1)) (s.get? i) &&
    wordBoundary (s.get? (i + pat.length - 1)) (s.get? (i + pat.length))

/-- `RegExp("\b" + pat + "\b", "gi").test(s)` for a literal `pat`. -/
def testWholeWordCI (pat s : List Char) : Bool :=
  (List.range (s.length + 1)).any (fun i => wholeWordAtCI pat s i)

/-- `AbstractTwitchMessage.isBlacklistUser`: a literal entry suppresses if
it equals the name case-insensitively, or — via the fallthrough to
`user.match(test)`, which treats the entry as a regex — if it occurs
anywhere in the name as a (case-sensitive) substring. -/
def isBlacklistUser (opts : MilochatOptions) (user : List Char) : Bool :=
  match opts.blacklist with
  | none => false
  | some b => b.users.any (fun t => eqCI user t || decide (t <:+: user))

/-- `AbstractTwitchMessage.isBlacklistMessage`.  Note the `includes`
loop of the source: `let regex = RegExp("\b" + word + "\b", "gi");
if (regex.test(word))` — the pattern is tested against the *word
itself*, not against the message. -/
def isBlacklistMessage (opts : MilochatOptions) (message : List Char) : Bool :=
  match opts.blacklist with
  | none => false
  | some b =>
    b.prefixes.any (fun p => jsStartsWithCI message p) ||
    b.includes.any (fun w => testWholeWordCI w w) ||
    b.regexes.any (fun r => r message)

/-- `AbstractTwitchMessage.isBlacklist`. -/
def isBlacklist (opts : MilochatOptions) (name message : List Char) : Bool :=
  isBlacklistUser opts name || isBlacklistMessage opts message

/-- Modelled from the claim's words (and §4.4 of the spec), for
comparison: suppressed iff the name equals a literal user entry
case-insensitively, or the text starts with a prefix (case-insensitive),
or the text contains a blacklisted word as a whole word, or the text
matches a blacklist regex. -/
def claimSuppressed (opts : MilochatOptions) (name message : List Char) : Bool :=
  match opts.blacklist with
  | none => false
  | some b =>
    b.users.any (fun t => eqCI name t) ||
    b.prefixes.any (fun p => jsStartsWithCI message p) ||
    b.includes.any (fun w => testWholeWordCI w message) ||
    b.regexes.any (fun r => r message)

/-! ## C7 — banks and `SuperBank` (`Images.tsx`)

A JavaScript object used as a map is modelled as an insertion-ordered
association list with unique first occurrence winning on lookup; the
spread `{...a, ...b}` keeps `a`'s key order with `b`'s values overriding,
then appends `b`'s new keys. -/

/-- A JS object used as a dictionary: `Bank<T>` of the source. -/
abbrev Bank (T : Type) : Type := List (List Char × T)

/-- Property access `bank[key]`. -/
def bankLookup {T : Type} (b : Bank T) (k : List Char) : Option T :=
  List.lookup k b

/-- `a || b` on possibly-undefined values (the bank values used here are
objects, which are always truthy). -/
def orO {T : Type} : Option T → Option T → Option T
  | some x, _ => some x
  | none, b => b

/-- The object spread `{...a, ...b}`. -/
def spread {T : Type} (a b : Bank T) : Bank T :=
  a.map (fun kv => (kv.1, (bankLookup b kv.1).getD kv.2)) ++
    b.filter (fun kv => (bankLookup a kv.1).isNone)

structure SuperBank (T : Type) where
  global : Bank T
  -- the source field is named `local`, a reserved word in Lean
  localBanks : Bank (Bank T)

/-- `SuperBank.get`: `this.local[channel]?.[id] || this.global[id]`. -/
def SuperBank.get {T : Type} (sb : SuperBank T) (id channel : List Char) : Option T :=
  orO ((bankLookup sb.localBanks channel).bind (fun lb => bankLookup lb id))
    (bankLookup sb.global id)

/-- `SuperBank.getAll`:
`let local = this.local[channel] || {}; return {...this.global, ...local}`. -/
def SuperBank.getAll {T : Type} (sb : SuperBank T) (channel : List Char) : Bank T :=
  spread sb.global ((bankLookup sb.localBanks channel).getD [])

/-- The `getAll` method call as an explicit state transformer: the value
it returns together with the receiver it leaves behind (the method only
reads `this`). -/
def SuperBank.getAllState {T : Type} (sb : SuperBank T) (channel : List Char) :
    Bank T × SuperBank T :=
  (sb.getAll channel, sb)

/-! ## C4 — emote resolution (`AbstractTwitchMessage.resolveEmotes`)

Phase 1 walks the raw text: positions holding a transport-supplied emote
range become an `<img>` tag, every other character is copied with `<`
and `>` HTML-escaped.  Phase 2 runs, over the intermediate HTML, a
whole-word `replaceAll` for every key of the flattened emote bank. -/

/-- The `Image` descriptor of `Images.tsx`. -/
structure Image where
  name : List Char
  source : List Char
  clazz : List (List Char)
  scale : List (Nat × List Char)
deriving Repr, DecidableEq

/-- `Array.prototype.join(sep)`. -/
def joinSep (sep : List Char) : List (List Char) → List Char
  | [] => []
  | [x] => x
  | x :: xs => x ++ sep ++ joinSep sep xs

/-- `imageToHTML` of `Images.tsx`.  The `scale` object is iterated in
ascending numeric key order (JS integer-key order), which the
association list is kept in. -/
def imageToHTML (img : Image) : List Char :=
  let srcset := img.scale.map (fun kv => kv.2 ++ ' ' :: (Nat.repr kv.1).toList ++ ['x'])
  "<img class=\"".toList ++ joinSep [' '] img.clazz ++ ' ' :: img.source ++
    "\" src=\"".toList ++ ((bankNatLookup img.scale 1).getD "undefined".toList) ++
    "\" ".toList ++
    (if srcset.isEmpty then [] else "srcset=\"".toList ++ joinSep [','] srcset ++ ['\"']) ++
    " alt=\"".toList ++ img.name ++ "\">".toList
where
  bankNatLookup (b : List (Nat × List Char)) (k : Nat) : Option (List Char) :=
    List.lookup k b

/-- The map built by `parseTwitchEmoteObj`: start index to
(image, end index). -/
abbrev TwitchMap : Type := List (Nat × Image × Nat)

/-- The escape of a single character in phase 1. -/
def escapeChar (c : Char) : List Char :=
  if c = '<' then "&lt;".toList
  else if c = '>' then "&gt;".toList
  else [c]

/-- Phase 1 of `resolveEmotes`: the `while (idx < raw.length)` loop.
At a start index of a transport emote range, the covered substring is
re-used as the image's name and replaced by its `<img>` tag; elsewhere
one character is escaped and copied.  The fuel argument only makes the
recursion structural (each iteration advances `idx` by at least one). -/
def scanEmotes (raw : List Char) (m : TwitchMap) : Nat → Nat → List Char
  | 0, _ => []
  | fuel + 1, idx =>
    if idx < raw.length then
      match List.lookup idx m with
      | some (img, e) =>
        let emoteName := (raw.drop idx).take (e + 1 - idx)
        imageToHTML { img with name := emoteName } ++ scanEmotes raw m fuel (e + 1)
      | none => escapeChar (raw.getD idx ' ') ++ scanEmotes raw m fuel (idx + 1)
    else []

/-- The pattern occurs literally at index `i` of the subject. -/
def sublistAt (pat s : List Char) (i : Nat) : Bool :=
  (s.drop i).take pat.length == pat

/-- `RegExp("\b" + pat + "\b", "g")` matches at index `i` of `s`
(for a literal, metacharacter-free, nonempty `pat`). -/
def wwMatchAt (pat s : List Char) (i : Nat) : Bool :=
  !pat.isEmpty && sublistAt pat s i &&
    wordBoundary (if i = 0 then none else s.get? (i - 1)) (s.get? i) &&
    wordBoundary (s.get? (i + pat.length - 1)) (s.get? (i + pat.length))

/-- `s.replaceAll(regex, repl)` for the word-bounded literal pattern:
leftmost non-overlapping matches are replaced, scanning left to right. -/
def replaceWWGo (pat repl s : List Char) : Nat → Nat → List Char
  | 0, _ => []
  | fuel + 1, i =>
    if i < s.length then
      if wwMatchAt pat s i then
        repl ++ replaceWWGo pat repl s fuel (i + pat.length)
      else s.getD i ' ' :: replaceWWGo pat repl s fuel (i + 1)
    else []

/-- `html.replaceAll(new RegExp("\\b" + emote + "\\b", "g"), tag)`. -/
def replaceWholeWord (pat repl s : List Char) : List Char :=
  replaceWWGo pat repl s (s.length + 1) 0

/-- Both phases of `resolveEmotes`, producing the final display HTML:
phase 1 over the raw text, then one whole-word `replaceAll` per entry of
the flattened emote bank (`for (let emote in emotesForChannel)`), in
bank order. -/
def resolveEmotesHtml (twitch : TwitchMap) (bank : Bank Image) (raw : List Char) :
    List Char :=
  let html := scanEmotes raw twitch (raw.length + 1) 0
  bank.foldl (fun h kv => replaceWholeWord kv.1 (imageToHTML kv.2) h) html

/-- `resolveEmotes` on the message object: compute the HTML and store it
through `setMessage` (which recomputes the emote-only flags). -/
def resolveEmotes (twitch : TwitchMap) (bank : Bank Image) (m : AbstractMessage) :
    AbstractMessage :=
  setMessage m (resolveEmotesHtml twitch bank m.message)

/-! ## C9 — pronoun resolver (`Pronouns.tsx`)

`getPronouns` as an explicit state transformer.  The remote call is an
oracle argument: `none` models a rejected fetch (the `catch` branch),
`some arr` the parsed JSON array of which only `arr[0].pronoun_id` is
ever read. -/

structure Pronoun where
  id : List Char
  display : Option (List Char)
deriving Repr, DecidableEq

/-- `const NO_PRONOUN: Pronoun = { id: "none", display: "" }`. -/
def NO_PRONOUN : Pronoun := ⟨"none".toList, some []⟩

structure PronounState where
  displayMap : List (List Char × List Char)
  pronounCache : List (List Char × Pronoun)
deriving Repr, DecidableEq

/-- The outcome of one `getPronouns` call: the resolved value, the
service state afterwards, and whether a network fetch was issued. -/
structure PronounOutcome where
  result : Option Pronoun
  state : PronounState
  fetched : Bool
deriving Repr, DecidableEq

/-- `PronounService.getPronouns`. -/
def getPronouns (st : PronounState) (username : List Char)
    (response : Option (List (List Char))) : PronounOutcome :=
  match List.lookup username st.pronounCache with
  | some p => ⟨if p.id = NO_PRONOUN.id then none else some p, st, false⟩
  | none =>
    if st.displayMap.isEmpty then ⟨none, st, false⟩
    else
      match response with
      | none => ⟨none, st, true⟩
      | some [] =>
        ⟨none, { st with pronounCache := (username, NO_PRONOUN) :: st.pronounCache }, true⟩
      | some (pid :: _) =>
        let p : Pronoun := ⟨pid, List.lookup pid st.displayMap⟩
        ⟨some p, { st with pronounCache := (username, p) :: st.pronounCache }, true⟩

/-! ## C1, C2 — display log lifecycle (`ChatBox` and `registerForDelete`)

The log is the React state: an ordered list of messages.  A
`setTimeout(destroy, fade)` is modelled as an explicit pending timer
value `(fade, ids)`; firing it applies the identity-based splice. -/

/-- `options.limit?.fade`. -/
def fadeOf (opts : MilochatOptions) : Option Nat :=
  opts.limit.bind (fun l => l.fade)

/-- `_.differenceBy(lines, toNix, 'id')` (and, for a single target,
`_.filter(lines, line => line.id !== toNix.id)`): splice out by id. -/
def removeByIds (ids : List (List Char)) (log : List AbstractMessage) :
    List AbstractMessage :=
  log.filter (fun e => !ids.contains e.id)

/-- `_.forEach(toNix, i => i.markedForDelete = true)`: the targets are
log entries, mutated in place, so the log now shows them marked. -/
def markByIds (ids : List (List Char)) (log : List AbstractMessage) :
    List AbstractMessage :=
  log.map (fun e => if ids.contains e.id then { e with markedForDelete := true } else e)

/-- The log together with at most one newly scheduled deletion timer:
the timer holds the delay in ms and the ids its `destroy` will splice
out when it fires. -/
structure DeleteOutcome where
  log : List AbstractMessage
  timer : Option (Nat × List (List Char))
deriving Repr, DecidableEq

/-- `registerForDelete` on an array of messages: with a truthy fade the
targets are marked and a `destroy` is scheduled after `fade` ms;
otherwise `destroy` runs at once. -/
def registerForDeleteMany (opts : MilochatOptions) (targets : List AbstractMessage)
    (log : List AbstractMessage) : DeleteOutcome :=
  let ids := targets.map (fun t => t.id)
  match fadeOf opts with
  | some fade => if 0 < fade then ⟨markByIds ids log, some (fade, ids)⟩
                 else ⟨removeByIds ids log, none⟩
  | none => ⟨removeByIds ids log, none⟩

/-- `registerForDelete` on a single message. -/
def registerForDeleteOne (opts : MilochatOptions) (target : AbstractMessage)
    (log : List AbstractMessage) : DeleteOutcome :=
  match fadeOf opts with
  | some fade => if 0 < fade then ⟨markByIds [target.id] log, some (fade, [target.id])⟩
                 else ⟨removeByIds [target.id] log, none⟩
  | none => ⟨removeByIds [target.id] log, none⟩

/-- A pending `destroy` fires: splice out its ids. -/
def fireTimer (t : Nat × List (List Char)) (log : List AbstractMessage) :
    List AbstractMessage :=
  removeByIds t.2 log

/-- `line.id` retrieval from the log (rendering keys rows by `line.id`). -/
def lookupById (log : List AbstractMessage) (id : List Char) :
    Option AbstractMessage :=
  log.find? (fun e => e.id == id)

/-- The `chat.onMessage` handler's `setLog` update: append, then — under
a count limit — select the oldest `length - max` entries and hand them
to `registerForDelete`.  The nested `setLog` issued by an immediate
`destroy` lands after the appending update, which is what applying
`registerForDeleteMany` to the appended log models. -/
def onMessageAppend (opts : MilochatOptions) (log : List AbstractMessage)
    (m : AbstractMessage) : DeleteOutcome :=
  let concat := log ++ [m]
  match opts.limit with
  | some lim =>
    match lim.flavor with
    | .count max =>
      if max < concat.length then
        registerForDeleteMany opts (concat.take (concat.length - max)) concat
      else ⟨concat, none⟩
    | .time _ => ⟨concat, none⟩
  | none => ⟨concat, none⟩

/-! ## C10 — channel-count cap (`RealChat` and `Bot`) -/

/-- `RealChat.MAX_CHANNELS`. -/
def MAX_CHANNELS : Nat := 5

/-- The constructor's `channels = _.take(channels, 5)`. -/
def initChannels (channels : List (List Char)) : List (List Char) :=
  channels.take 5

/-- `RealChat.join`: refused when 5 channels are already joined. -/
def joinChannel (st : List (List Char)) (c : List Char) : List (List Char) :=
  if st.length < MAX_CHANNELS then st ++ [c] else st

/-- `RealChat.leave` via `client.part`. -/
def leaveChannel (st : List (List Char)) (c : List Char) : List (List Char) :=
  st.filter (fun x => !(x == c))

/-- The sender-facing fields the bot reads off a `ChatMessage`. -/
structure BotMsg where
  message : List Char
  channel : List Char
  broadcaster : Bool
  mod : Bool

/-- `msg.message.substring(1).split(/\s+/)`: split on whitespace runs
(fuel only makes the recursion structural). -/
def splitWsGo : Nat → List Char → List Char → List (List Char)
  | 0, acc, _ => [acc.reverse]
  | _ + 1, acc, [] => [acc.reverse]
  | fuel + 1, acc, c :: rest =>
    if isJsSpace c then acc.reverse :: splitWsGo fuel [] (rest.dropWhile isJsSpace)
    else splitWsGo fuel (c :: acc) rest

def splitWs (s : List Char) : List (List Char) := splitWsGo s.length [] s

/-- `Bot.onMessage`: gated on the configured command marker and on
`msg.broadcaster || msg.mod`; recognizes `join <channel>` (truthy
argument required) and `leave [channel]` (falling back to the message's
channel when the argument is absent or empty). -/
def botOnMessage (marker : List Char) (st : List (List Char)) (msg : BotMsg) :
    List (List Char) :=
  if marker.isPrefixOf msg.message && (msg.broadcaster || msg.mod) then
    match splitWs (msg.message.drop 1) with
    | [] => st
    | cmd :: args =>
      if cmd = "join".toList then
        match args.head? with
        | some a => if a.isEmpty then st else joinChannel st a
        | none => st
      else if cmd = "leave".toList then
        let a0 := (args.head?).getD []
        leaveChannel st (if a0.isEmpty then msg.channel else a0)
      else st
  else st

/-- Everything that changes the joined-channel set after construction. -/
inductive ChatEvent
  | join (c : List Char)
  | leave (c : List Char)
  | bot (msg : BotMsg)

/-- One state step of the joined-channel set. -/
def chatStep (marker : List Char) (st : List (List Char)) : ChatEvent → List (List Char)
  | .join c => joinChannel st c
  | .leave c => leaveChannel st c
  | .bot m => botOnMessage marker st m

/-! ## Concrete fixtures (used by witnesses) -/

/-- Fixture: the four messages of the count-limit scenario. -/
def msgA : AbstractMessage := mkAbstractMessage "A".toList "ida".toList

def msgB : AbstractMessage := mkAbstractMessage "B".toList "idb".toList

def msgC : AbstractMessage := mkAbstractMessage "C".toList "idc".toList

def msgD : AbstractMessage := mkAbstractMessage "D".toList "idd".toList

/-- Fixture: a count limit of 3 with no fade. -/
def optsCount3 : MilochatOptions := { limit := some ⟨.count 3, none⟩ }

/-- Fixture: a count limit of 3 with a 500 ms fade. -/
def optsFade500 : MilochatOptions := { limit := some ⟨.count 3, some 500⟩ }

/-! # Theorems -/

/-! ## Helper lemmas for C6 -/

theorem toInt32_congr {a b : Int} (h : a % 2 ^ 32 = b % 2 ^ 32) :
    toInt32 a = toInt32 b := by
  have h2 : (a + 2 ^ 31) % 2 ^ 32 = (b + 2 ^ 31) % 2 ^ 32 :=
    Int.ModEq.add_right _ h
  simp only [toInt32, h2]

theorem toInt32_emod_self (a : Int) : toInt32 a % 2 ^ 32 = a % 2 ^ 32 := by
  simp only [toInt32]
  omega

theorem hashStep_eq (h : Int) (c : Nat) : hashStep h c = toInt32 (31 * h + c) := by
  unfold hashStep
  apply toInt32_congr
  have h1 := toInt32_emod_self (h * 32)
  omega

theorem hexRep_length : ∀ (fuel k n : Nat), n < 16 ^ k → 1 ≤ k →
    (hexRep fuel n).length ≤ k := by
  intro fuel
  induction fuel with
  | zero => intro k n _ _; simp [hexRep]
  | succ f ih =>
    intro k n hn hk
    unfold hexRep
    by_cases h16 : n < 16
    · simpa [h16] using hk
    · have hk2 : 2 ≤ k := by
        by_contra hcon
        have : k = 1 := by omega
        subst this
        simp at hn
        omega
      have hdiv : n / 16 < 16 ^ (k - 1) := by
        have h4 : 16 ^ k = 16 ^ (k - 1) * 16 := by
          conv_lhs => rw [show k = (k - 1) + 1 by omega]
          ring
        have := (Nat.div_lt_iff_lt_mul (by norm_num : 0 < 16)).mpr (h4 ▸ hn)
        exact this
      have := ih (k - 1) (n / 16) hdiv (by omega)
      simp only [h16, if_false, List.length_append, List.length_cons,
        List.length_nil]
      omega

/-- C6: with no explicit color, the derived color is a pure function of
the sender name, computed by the rolling hash
`hash = (hash<<5) - hash + charCode` truncated to a 32-bit signed
integer at each step, masked to the low 24 bits, and formatted as `#`
followed by a zero-padded 6-hex-digit value: `createColor` (the
source's double-truncating loop) coincides with `deriveColor` (the
claim's one-truncation-per-step formula), and its output is always `#`
plus exactly six hex digits. -/
theorem color_fallback_correct (name : List Char) :
    createColor name = deriveColor name ∧
    (createColor name).length = 7 ∧
    (createColor name).head? = some '#' := by
  refine ⟨?_, ?_, ?_⟩
  · have hfun : (fun (h : Int) (c : Char) => hashStep h c.toNat) =
        (fun (h : Int) (c : Char) => toInt32 (31 * h + c.toNat)) := by
      funext h c
      exact hashStep_eq h c.toNat
    simp only [createColor, deriveColor, hashName, hfun]
  · have h0 : (0 : Int) < 2 ^ 24 := by norm_num
    have hlt : (hashName name % 2 ^ 24).toNat < 16 ^ 6 := by
      have h1 := Int.emod_lt_of_pos (hashName name) h0
      have h2 := Int.emod_nonneg (hashName name) (by norm_num : (2 : Int) ^ 24 ≠ 0)
      omega
    have hlen := hexRep_length 24 6 (hashName name % 2 ^ 24).toNat hlt (by norm_num)
    simp only [createColor, jsToString16, padStart, List.length_cons,
      List.length_append, List.length_replicate]
    omega
  · simp [createColor]

/-! ## C5 — subscription tier decomposition -/

/-- C5: the subscriber badge value `v` decomposes as: `v ≥ 3000` gives
tier 3 with display-months `v - 3000`; `2000 ≤ v < 3000` gives tier 2
with display-months `v - 2000`; otherwise tier 1 with display-months
`v`; and in every case the cumulative total is taken from the separate
badge-info field, independent of `v`. -/
theorem subscription_tier_decomposition (v : Int) (info : Option Int) :
    (3000 ≤ v → mkSubMonths v info = ⟨v - 3000, 3, info.getD 0⟩) ∧
    (2000 ≤ v → v < 3000 → mkSubMonths v info = ⟨v - 2000, 2, info.getD 0⟩) ∧
    (v < 2000 → mkSubMonths v info = ⟨v, 1, info.getD 0⟩) := by
  unfold mkSubMonths
  refine ⟨fun h => ?_, fun h1 h2 => ?_, fun h => ?_⟩ <;>
    split_ifs <;> first | rfl | omega

/-- Witness for C5 at the claim's three concrete badge values:
2005 gives tier 2 / months 5, 150 gives tier 1 / months 150, 3002 gives
tier 3 / months 2. -/
theorem subscription_tier_decomposition_witness :
    mkSubMonths 2005 (some 7) = ⟨5, 2, 7⟩ ∧
    mkSubMonths 150 none = ⟨150, 1, 0⟩ ∧
    mkSubMonths 3002 (some 42) = ⟨2, 3, 42⟩ := by
  refine ⟨?_, ?_, ?_⟩
  · simpa using (subscription_tier_decomposition 2005 (some 7)).2.1
      (by norm_num) (by norm_num)
  · simpa using (subscription_tier_decomposition 150 none).2.2 (by norm_num)
  · simpa using (subscription_tier_decomposition 3002 (some 42)).1 (by norm_num)

/-! ## C3 — blacklist verdict -/

/-- C3: the claimed "suppressed iff" fails on the code.  With the
blacklist `includes = ["spam"]`, the message `"hello"` from `"Alice"`
contains no blacklisted word, so the claim says it is not suppressed —
but `isBlacklistMessage` tests each `includes` pattern against the word
itself (`regex.test(word)` instead of `regex.test(message)`), which
always succeeds for an ordinary word, so the code suppresses every
message.  The claim's user-name example does hold: `"Bob"` is
suppressed by a `users` entry `"bob"` but not by `"Bobby"` alone. -/
theorem blacklist_self_test_divergence :
    isBlacklist { blacklist := some { includes := ["spam".toList] } }
      "Alice".toList "hello".toList = true ∧
    claimSuppressed { blacklist := some { includes := ["spam".toList] } }
      "Alice".toList "hello".toList = false ∧
    isBlacklist { blacklist := some { users := ["bob".toList] } }
      "Bob".toList "hi there".toList = true ∧
    isBlacklist { blacklist := some { users := ["Bobby".toList] } }
      "Bob".toList "hi there".toList = false :=
  ⟨rfl, rfl, rfl, rfl⟩

/-! ## C8 — derived emote-only flags -/

/-- C8: the claimed characterization of `isSingleEmoteOnly` fails on the
code.  For the display HTML `"<img a><img b>"` — two `<img>` tags — the
claim (and the field's own doc comment) require `isOneEmoteOnly` to be
false, but the lazy regex `/^<img.*?>$/` backtracks across the first
tag's `>` and accepts, so the constructor sets both `emoteOnly` and
`isOneEmoteOnly` to true even though the strip pass counts two tags.
`setMessage` recomputes the flags the same way. -/
theorem one_emote_flag_divergence :
    (mkAbstractMessage "<img a><img b>".toList "m1".toList).emoteOnly = true ∧
    (mkAbstractMessage "<img a><img b>".toList "m1".toList).isOneEmoteOnly = true ∧
    countImgTags "<img a><img b>".toList = 2 ∧
    (setMessage (mkAbstractMessage "x".toList "m1".toList)
        "<img a><img b>".toList).isOneEmoteOnly = true := by
  refine ⟨by decide, by decide, by decide, by decide⟩

/-! ## C4 — emote substitution ordering -/

theorem wwMatchAt_head_mem {pat s : List Char} {i : Nat} {c : Char}
    (hp : pat.head? = some c) (hm : wwMatchAt pat s i = true) : c ∈ s := by
  unfold wwMatchAt at hm
  simp only [Bool.and_eq_true] at hm
  have hs : sublistAt pat s i = true := hm.1.1.2
  unfold sublistAt at hs
  have heq : (s.drop i).take pat.length = pat := by
    exact eq_of_beq hs
  have hc : c ∈ pat := by
    cases pat with
    | nil => simp at hp
    | cons a t =>
      simp only [List.head?_cons, Option.some.injEq] at hp
      subst hp
      exact List.mem_cons_self _ _
  rw [← heq] at hc
  exact List.mem_of_mem_drop (List.mem_of_mem_take hc)

theorem replaceWWGo_no_occurrence {pat repl s : List Char} {c : Char}
    (hp : pat.head? = some c) (hc : c ∉ s) :
    ∀ fuel i, s.length - i < fuel → replaceWWGo pat repl s fuel i = s.drop i := by
  intro fuel
  induction fuel with
  | zero => intro i h; omega
  | succ f ih =>
    intro i h
    unfold replaceWWGo
    by_cases hi : i < s.length
    · have hm : wwMatchAt pat s i = false := by
        cases hmm : wwMatchAt pat s i with
        | false => rfl
        | true => exact absurd (wwMatchAt_head_mem hp hmm) hc
      simp only [hi, if_true, hm, Bool.false_eq_true]
      rw [ih (i + 1) (by omega)]
      rw [List.drop_eq_getElem_cons hi, List.getD_eq_getElem s ' ' hi]
      simp
    · simp only [hi, if_false]
      rw [List.drop_eq_nil_of_le (by omega)]

/-- C4: enrichment escapes `<` and `>` during the phase-1 scan and only
afterwards runs whole-word bank substitution on the intermediate HTML;
hence for raw input `"hello <3"` with no transport emote ranges and an
enriched bank containing the key `"<3"`, phase 1 produces
`"hello &lt;3"`, the bank key finds no `<` left to match, and the
literal text survives as `"hello &lt;3"` — whatever image the bank maps
`"<3"` to. -/
theorem emote_escape_before_bank (img : Image) :
    scanEmotes "hello <3".toList [] ("hello <3".toList.length + 1) 0 =
      "hello &lt;3".toList ∧
    resolveEmotesHtml [] [("<3".toList, img)] "hello <3".toList =
      "hello &lt;3".toList := by
  have h1 : scanEmotes "hello <3".toList [] 9 0 = "hello &lt;3".toList := by decide
  refine ⟨h1, ?_⟩
  unfold resolveEmotesHtml
  simp only [List.foldl_cons, List.foldl_nil]
  rw [show "hello <3".toList.length + 1 = 9 from rfl, h1]
  unfold replaceWholeWord
  rw [@replaceWWGo_no_occurrence ("<3".toList) (imageToHTML img)
    ("hello &lt;3".toList) '<' (by decide) (by decide)
    ("hello &lt;3".toList.length + 1) 0 (by decide)]
  rfl

/-! ## C7 — `SuperBank.getAll` -/

theorem lookup_mapValues {T : Type} (f : List Char → T → T) (a : Bank T)
    (k : List Char) :
    List.lookup k (a.map fun kv => (kv.1, f kv.1 kv.2)) =
      (List.lookup k a).map (f k) := by
  induction a with
  | nil => rfl
  | cons kv t ih =>
    simp only [List.map_cons, List.lookup]
    cases hb : (k == kv.1) with
    | true =>
      have hk : k = kv.1 := eq_of_beq hb
      simp only [hb]
      rw [hk]
      rfl
    | false => simpa only [hb] using ih

theorem lookup_append_orO {T : Type} (a b : Bank T) (k : List Char) :
    List.lookup k (a ++ b) = orO (List.lookup k a) (List.lookup k b) := by
  induction a with
  | nil => simp [List.lookup, orO]
  | cons kv t ih =>
    simp only [List.cons_append, List.lookup]
    cases hb : (k == kv.1) with
    | true => simp [hb, orO]
    | false => simpa only [hb] using ih

theorem lookup_filter_of_key {T : Type} (p : List Char × T → Bool) (b : Bank T)
    (k : List Char) (h : ∀ kv ∈ b, kv.1 = k → p kv = true) :
    List.lookup k (b.filter p) = List.lookup k b := by
  induction b with
  | nil => rfl
  | cons kv t ih =>
    have ih2 := ih (fun x hx => h x (List.mem_cons_of_mem _ hx))
    cases hb : (k == kv.1) with
    | true =>
      have hk : kv.1 = k := (eq_of_beq hb).symm
      have hp : p kv = true := h kv (List.mem_cons_self _ _) hk
      simp [List.filter_cons, hp, List.lookup, hb]
    | false =>
      cases hp : p kv with
      | true =>
        simp only [List.filter_cons, hp, if_true, List.lookup, hb]
        exact ih2
      | false =>
        simp only [List.filter_cons, hp, Bool.false_eq_true, if_false,
          List.lookup, hb]
        exact ih2

theorem orO_none_right {T : Type} (a : Option T) : orO a none = a := by
  cases a <;> rfl

theorem orO_none_left {T : Type} (a : Option T) : orO none a = a := rfl

/-- C7: for every SuperBank state, channel and key, looking a key up in
`getAll channel` gives the channel-local value when the channel's bank
has one and the global value otherwise — so `getAll` is exactly the
overlay `{...global, ...(local[channel] ?? {})}` in which channel
entries win on collision and a missing channel contributes nothing —
and the call leaves the SuperBank itself unchanged. -/
theorem superbank_getAll_merge {T : Type} (sb : SuperBank T)
    (channel k : List Char) :
    bankLookup (sb.getAll channel) k =
      orO (bankLookup ((bankLookup sb.localBanks channel).getD []) k)
        (bankLookup sb.global k) ∧
    sb.getAllState channel = (sb.getAll channel, sb) := by
  refine ⟨?_, rfl⟩
  unfold SuperBank.getAll spread
  simp only [bankLookup]
  set lb : Bank T := (List.lookup channel sb.localBanks).getD [] with hlb
  rw [lookup_append_orO,
    lookup_mapValues (fun key v => (List.lookup key lb).getD v)]
  cases hg : List.lookup k sb.global with
  | none =>
    have hmn : Option.map (fun v => (List.lookup k lb).getD v) (none : Option T) =
        none := rfl
    rw [hmn, orO_none_left, orO_none_right]
    apply lookup_filter_of_key
    intro kv _ hkv
    rw [hkv, hg]
    rfl
  | some v =>
    have hms : Option.map (fun w => (List.lookup k lb).getD w) (some v) =
        some ((List.lookup k lb).getD v) := rfl
    rw [hms]
    cases hl : List.lookup k lb with
    | none => simp [hl, orO]
    | some w => simp [hl, orO]

/-! ## C9 — pronoun memoization -/

/-- C9: once a lookup has resolved (with a found pronoun, or with the
explicit empty-array "no pronoun" outcome), the result is cached and
every later `getPronouns` call for that username is answered from the
cache with no network fetch and no state change; while the display map
has not yet loaded, lookups return absent without caching, leaving the
state untouched so the same username can still resolve later. -/
theorem pronoun_memoization (st : PronounState) (u : List Char)
    (resp : Option (List (List Char))) :
    (∀ p, List.lookup u st.pronounCache = some p →
      getPronouns st u resp =
        ⟨if p.id = NO_PRONOUN.id then none else some p, st, false⟩) ∧
    (List.lookup u st.pronounCache = none → st.displayMap = [] →
      getPronouns st u resp = ⟨none, st, false⟩) ∧
    (∀ arr resp2, List.lookup u st.pronounCache = none → st.displayMap ≠ [] →
      resp = some arr →
      (getPronouns st u resp).fetched = true ∧
      (getPronouns (getPronouns st u resp).state u resp2).fetched = false ∧
      (getPronouns (getPronouns st u resp).state u resp2).state =
        (getPronouns st u resp).state) := by
  refine ⟨?_, ?_, ?_⟩
  · intro p hp
    unfold getPronouns
    rw [hp]
  · intro h1 h2
    unfold getPronouns
    rw [h1, h2]
    rfl
  · intro arr resp2 h1 h2 hr
    subst hr
    have hne : st.displayMap.isEmpty = false := by
      cases hd : st.displayMap with
      | nil => exact absurd hd h2
      | cons a t => rfl
    cases arr with
    | nil =>
      simp only [getPronouns, h1, hne, Bool.false_eq_true, if_false,
        List.lookup, beq_self_eq_true]
      simp
    | cons pid rest =>
      simp only [getPronouns, h1, hne, Bool.false_eq_true, if_false,
        List.lookup, beq_self_eq_true]
      simp

/-- Witness for C9: with a loaded display map and an empty cache, a
first lookup resolving to the explicit "no pronoun" outcome fetches,
and a second lookup for the same user neither fetches nor changes the
state, while an empty display map leaves the state untouched. -/
theorem pronoun_memoization_witness :
    (getPronouns ⟨[("hehim".toList, "He/Him".toList)], []⟩ "al".toList
        (some [])).fetched = true ∧
    (getPronouns (getPronouns ⟨[("hehim".toList, "He/Him".toList)], []⟩
        "al".toList (some [])).state "al".toList
        (some ["hehim".toList])).fetched = false ∧
    getPronouns ⟨[], []⟩ "al".toList (some ["hehim".toList]) =
      ⟨none, ⟨[], []⟩, false⟩ := by
  have h := (pronoun_memoization ⟨[("hehim".toList, "He/Him".toList)], []⟩
    "al".toList (some [])).2.2 [] (some ["hehim".toList]) rfl (by decide) rfl
  have h2 := (pronoun_memoization ⟨[], []⟩ "al".toList
    (some ["hehim".toList])).2.1 rfl rfl
  exact ⟨h.1, h.2.1, h2⟩

/-! ## C1 — count-limit eviction -/

theorem removeByIds_take_drop (k : Nat) (l : List AbstractMessage)
    (h : (l.map (fun e => e.id)).Nodup) :
    removeByIds ((l.take k).map (fun e => e.id)) l = l.drop k := by
  unfold removeByIds
  set ids : List (List Char) := (l.take k).map (fun e => e.id) with hids
  conv_lhs => rw [← List.take_append_drop k l]
  rw [List.filter_append]
  have h1 : (l.take k).filter (fun e => !ids.contains e.id) = [] := by
    rw [List.filter_eq_nil_iff]
    intro e he
    simp only [Bool.not_eq_true', Bool.not_eq_false]
    simp only [List.contains, List.elem_iff, hids]
    exact List.mem_map_of_mem _ he
  have h2 : (l.drop k).filter (fun e => !ids.contains e.id) = l.drop k := by
    rw [List.filter_eq_self]
    intro e he
    simp only [Bool.not_eq_true', List.contains, ← Bool.not_eq_true,
      List.elem_iff, hids]
    intro hmem
    have hsplit : (l.map (fun e => e.id)) =
        (l.take k).map (fun e => e.id) ++ (l.drop k).map (fun e => e.id) := by
      rw [← List.map_append, List.take_append_drop]
    rw [hsplit, List.nodup_append] at h
    exact h.2.2 hmem (List.mem_map_of_mem _ he)
  rw [h1, h2, List.nil_append]

/-- C1: under a count limit `max` with no fade configured, the
`onMessage` handler appends and then immediately removes exactly the
oldest `length - max` entries — the resulting log is
`drop (length - max)` of the appended log (so order is preserved and no
timer is scheduled) — provided message ids are distinct. -/
theorem count_limit_eviction (max : Nat) (log : List AbstractMessage)
    (m : AbstractMessage)
    (h : ((log ++ [m]).map (fun e => e.id)).Nodup) :
    onMessageAppend { limit := some ⟨.count max, none⟩ } log m =
      ⟨(log ++ [m]).drop ((log ++ [m]).length - max), none⟩ := by
  have hrfl : onMessageAppend { limit := some ⟨.count max, none⟩ } log m =
      (if max < (log ++ [m]).length then
        registerForDeleteMany { limit := some ⟨.count max, none⟩ }
          ((log ++ [m]).take ((log ++ [m]).length - max)) (log ++ [m])
      else ⟨log ++ [m], none⟩) := rfl
  rw [hrfl]
  by_cases hlen : max < (log ++ [m]).length
  · rw [if_pos hlen]
    have hred : registerForDeleteMany { limit := some ⟨.count max, none⟩ }
        ((log ++ [m]).take ((log ++ [m]).length - max)) (log ++ [m]) =
        ⟨removeByIds (((log ++ [m]).take ((log ++ [m]).length - max)).map
          (fun t => t.id)) (log ++ [m]), none⟩ := rfl
    rw [hred, removeByIds_take_drop _ _ h]
  · rw [if_neg hlen]
    have h0 : (log ++ [m]).length - max = 0 := by omega
    rw [h0, List.drop_zero]

/-- Witness for C1, the claim's scenario: `max = 3`, four appends
`A, B, C, D` with distinct ids; after `D` the log is `[B, C, D]` — `A`
is gone, order preserved, removal immediate (no pending timer). -/
theorem count_limit_eviction_witness :
    (([msgA, msgB, msgC, msgD].map (fun e => e.id)).Nodup) ∧
    (onMessageAppend optsCount3 [] msgA).log = [msgA] ∧
    (onMessageAppend optsCount3 [msgA] msgB).log = [msgA, msgB] ∧
    (onMessageAppend optsCount3 [msgA, msgB] msgC).log = [msgA, msgB, msgC] ∧
    onMessageAppend optsCount3 [msgA, msgB, msgC] msgD =
      ⟨[msgB, msgC, msgD], none⟩ := by
  refine ⟨by decide, by decide, by decide, by decide, ?_⟩
  have h := count_limit_eviction 3 [msgA, msgB, msgC] msgD (by decide)
  rw [show optsCount3 = { limit := some ⟨.count 3, none⟩ } from rfl, h]
  decide

/-! ## C2 — two-phase fade deletion -/

theorem lookupById_markByIds (ids : List (List Char))
    (log : List AbstractMessage) (i : List Char) :
    lookupById (markByIds ids log) i =
      (lookupById log i).map
        (fun e => if ids.contains e.id then { e with markedForDelete := true }
                  else e) := by
  unfold lookupById markByIds
  induction log with
  | nil => rfl
  | cons e t ih =>
    simp only [List.map_cons, List.find?]
    cases hc : ids.contains e.id with
    | true =>
      have hmem : e.id ∈ ids := by simpa using hc
      simp only [hc, if_true]
      cases hb : (e.id == i) with
      | true => simp [List.find?, hb, hmem]
      | false => simpa [List.find?, hb] using ih
    | false =>
      have hmem : e.id ∉ ids := by simpa using hc
      simp only [hc, Bool.false_eq_true, if_false]
      cases hb : (e.id == i) with
      | true => simp [List.find?, hb, hmem]
      | false => simpa [List.find?, hb] using ih

theorem lookupById_removeByIds_mem (ids : List (List Char))
    (log : List AbstractMessage) (i : List Char)
    (hi : ids.contains i = true) :
    lookupById (removeByIds ids log) i = none := by
  unfold lookupById removeByIds
  induction log with
  | nil => rfl
  | cons e t ih =>
    simp only [List.filter_cons]
    cases hk : ids.contains e.id with
    | true => simpa [hk] using ih
    | false =>
      have hne : (e.id == i) = false := by
        cases hb : (e.id == i) with
        | false => rfl
        | true =>
          have : e.id = i := eq_of_beq hb
          rw [this, hi] at hk
          exact absurd hk (by simp)
      simp only [hk, Bool.not_false, if_true, List.find?, hne]
      exact ih

theorem lookupById_removeByIds_not_mem (ids : List (List Char))
    (log : List AbstractMessage) (i : List Char)
    (hi : ids.contains i = false) :
    lookupById (removeByIds ids log) i = lookupById log i := by
  unfold lookupById removeByIds
  induction log with
  | nil => rfl
  | cons e t ih =>
    simp only [List.filter_cons, List.find?]
    cases hb : (e.id == i) with
    | true =>
      have he : e.id = i := eq_of_beq hb
      have hk : ids.contains e.id = false := by rw [he]; exact hi
      have hmem : e.id ∉ ids := by simpa using hk
      simp [hmem, List.find?, hb]
    | false =>
      cases hk : ids.contains e.id with
      | true => simpa [hk, hb] using ih
      | false => simpa [hk, List.find?, hb] using ih

/-- C2: when a positive fade `f` is configured, `registerForDelete`
first marks every selected entry (`markedForDelete := true`) while
keeping it in the log — any entry present before is still retrievable by
id, now marked — and schedules the actual removal to run only after `f`
milliseconds; when that timer fires it splices by id, deleting exactly
the targeted ids and leaving every other entry untouched wherever it
sits; with no fade configured, removal is immediate in a single phase. -/
theorem fade_two_phase (f : Nat) (opts : MilochatOptions)
    (targets log : List AbstractMessage)
    (hf : 0 < f) (hopts : fadeOf opts = some f) :
    registerForDeleteMany opts targets log =
      ⟨markByIds (targets.map (fun t => t.id)) log,
        some (f, targets.map (fun t => t.id))⟩ ∧
    (∀ t : AbstractMessage, registerForDeleteOne opts t log =
      ⟨markByIds [t.id] log, some (f, [t.id])⟩) ∧
    (∀ i, lookupById (markByIds (targets.map (fun t => t.id)) log) i =
      (lookupById log i).map
        (fun e => if (targets.map (fun t => t.id)).contains e.id then
            { e with markedForDelete := true } else e)) ∧
    (∀ i lg, (targets.map (fun t => t.id)).contains i = true →
      lookupById (fireTimer (f, targets.map (fun t => t.id)) lg) i = none) ∧
    (∀ i lg, (targets.map (fun t => t.id)).contains i = false →
      lookupById (fireTimer (f, targets.map (fun t => t.id)) lg) i =
        lookupById lg i) ∧
    (∀ optsN : MilochatOptions, fadeOf optsN = none →
      registerForDeleteMany optsN targets log =
        ⟨removeByIds (targets.map (fun t => t.id)) log, none⟩) := by
  refine ⟨?_, ?_, ?_, ?_, ?_, ?_⟩
  · unfold registerForDeleteMany
    rw [hopts]
    simp [hf]
  · intro t
    unfold registerForDeleteOne
    rw [hopts]
    simp [hf]
  · intro i
    exact lookupById_markByIds _ _ _
  · intro i lg hi
    exact lookupById_removeByIds_mem _ _ _ hi
  · intro i lg hi
    exact lookupById_removeByIds_not_mem _ _ _ hi
  · intro optsN hN
    unfold registerForDeleteMany
    rw [hN]

/-- Witness for C2 at `fade = 500`: evicting `A` from the log `[A, B]`
marks `A` and schedules a 500 ms timer; during the window `A` is still
retrievable by id (marked); when the timer fires, `A` alone is spliced
out; with no fade the removal is immediate. -/
theorem fade_two_phase_witness :
    registerForDeleteMany optsFade500 [msgA] [msgA, msgB] =
      ⟨[{ msgA with markedForDelete := true }, msgB],
        some (500, ["ida".toList])⟩ ∧
    lookupById (registerForDeleteMany optsFade500 [msgA] [msgA, msgB]).log
      "ida".toList = some { msgA with markedForDelete := true } ∧
    fireTimer (500, ["ida".toList])
      [{ msgA with markedForDelete := true }, msgB] = [msgB] ∧
    registerForDeleteMany optsCount3 [msgA] [msgA, msgB] = ⟨[msgB], none⟩ := by
  have h := fade_two_phase 500 optsFade500 [msgA] [msgA, msgB]
    (by decide) (by decide)
  refine ⟨?_, ?_, by decide, ?_⟩
  · rw [h.1]
    decide
  · rw [h.1]
    decide
  · exact (h.2.2.2.2.2 optsCount3 (by decide)).trans (by decide)

/-! ## C10 — channel-count cap -/

theorem joinChannel_length_le (st : List (List Char)) (c : List Char)
    (h : st.length ≤ 5) : (joinChannel st c).length ≤ 5 := by
  unfold joinChannel MAX_CHANNELS
  split_ifs with hlt
  · simp only [List.length_append, List.length_cons, List.length_nil]
    omega
  · exact h

theorem leaveChannel_length_le (st : List (List Char)) (c : List Char)
    (h : st.length ≤ 5) : (leaveChannel st c).length ≤ 5 := by
  unfold leaveChannel
  exact le_trans (List.length_filter_le _ _) h

theorem botOnMessage_length_le (marker : List Char) (st : List (List Char))
    (msg : BotMsg) (h : st.length ≤ 5) :
    (botOnMessage marker st msg).length ≤ 5 := by
  unfold botOnMessage
  repeat' split
  all_goals
    first
      | exact h
      | exact joinChannel_length_le _ _ h
      | exact leaveChannel_length_le _ _ h

theorem chatStep_length_le (marker : List Char) (st : List (List Char))
    (e : ChatEvent) (h : st.length ≤ 5) :
    (chatStep marker st e).length ≤ 5 := by
  cases e with
  | join c => exact joinChannel_length_le _ _ h
  | leave c => exact leaveChannel_length_le _ _ h
  | bot m => exact botOnMessage_length_le _ _ _ h

theorem foldl_chatStep_le (marker : List Char) :
    ∀ (evs : List ChatEvent) (st : List (List Char)), st.length ≤ 5 →
      (evs.foldl (chatStep marker) st).length ≤ 5 := by
  intro evs
  induction evs with
  | nil => intro st h; exact h
  | cons e t ih =>
    intro st h
    exact ih _ (chatStep_length_le _ _ _ h)

/-- C10: the joined-channel set never exceeds 5 channels: the
constructor truncates the initial list to its first 5 entries, every
reachable state (under direct joins, leaves, and bot-command joins)
keeps at most 5 channels, and a join attempted with 5 channels already
joined is refused, leaving the set unchanged. -/
theorem channel_cap (marker : List Char) (chs : List (List Char))
    (evs : List ChatEvent) :
    (initChannels chs).length ≤ 5 ∧
    (evs.foldl (chatStep marker) (initChannels chs)).length ≤ 5 ∧
    (∀ (st : List (List Char)) (c : List Char), st.length = 5 →
      joinChannel st c = st) := by
  have hinit : (initChannels chs).length ≤ 5 := by
    unfold initChannels
    simp [List.length_take]
  refine ⟨hinit, foldl_chatStep_le marker evs _ hinit, ?_⟩
  intro st c h5
  unfold joinChannel MAX_CHANNELS
  rw [if_neg (by omega)]

/-- Witness for C10: starting from seven requested channels only five
are joined; a further join (directly or through the bot's `join`
command) leaves the set unchanged, and `joinChannel` at a full set is a
no-op. -/
theorem channel_cap_witness :
    ([ChatEvent.join "f".toList,
        ChatEvent.bot ⟨"!join gchan".toList, "a".toList, true, false⟩].foldl
      (chatStep "!".toList)
      (initChannels (["a", "b", "c", "d", "e", "f", "g"].map String.toList))).length
      ≤ 5 ∧
    joinChannel (["a", "b", "c", "d", "e"].map String.toList) "f".toList =
      ["a", "b", "c", "d", "e"].map String.toList := by
  refine ⟨(channel_cap "!".toList
    (["a", "b", "c", "d", "e", "f", "g"].map String.toList) _).2.1, ?_⟩
  exact (channel_cap "!".toList [] []).2.2
    (["a", "b", "c", "d", "e"].map String.toList) "f".toList (by decide)

end Milochat
